import Mathlib

/-!
Shallow embedding of the scoring-and-extraction engine of go-readability
(mauidude/go-readability).  The HTML tree (produced externally by
goquery / x/net/html) is modelled by `HNode`/`HForest`: element nodes carry
their tag name, their `class` and `id` attribute values (the only attributes
the engine ever reads) and their children; text nodes carry their text.
Go byte lengths (`len(...)` on strings) are modelled by UTF-8 byte length,
`float32` scores by exact rationals (`ℚ`), and the case-insensitive literal
alternation regexps by case-insensitive substring search over their keyword
lists.  Node identity (Go `*html.Node` map keys) is modelled by the node's
path (list of child indices) from the document root.
-/

namespace GoReadability

mutual

inductive HNode where
  | elem (tag cls idA : String) (children : HForest)
  | textN (s : String)
  deriving Repr, DecidableEq

inductive HForest where
  | nil
  | cons (head : HNode) (tail : HForest)
  deriving Repr, DecidableEq

end

/-- Convert a Lean list of nodes to an `HForest` (only a convenience for
writing concrete test trees). -/
def HForest.ofList : List HNode → HForest
  | [] => .nil
  | c :: cs => .cons c (HForest.ofList cs)

/-- Convenience constructor for a concrete element node. -/
def eN (tag cls idA : String) (cs : List HNode) : HNode :=
  HNode.elem tag cls idA (HForest.ofList cs)

/-- Convenience constructor for a concrete text node. -/
def tN (s : String) : HNode :=
  HNode.textN s

mutual

/-- Text content of a node: concatenation of all text-node data in the
subtree, in document order (goquery `Selection.Text()` on a single node). -/
def textL : HNode → List Char
  | .textN s => s.data
  | .elem _ _ _ cs => textLF cs

/-- Text content of a forest of nodes, in order. -/
def textLF : HForest → List Char
  | .nil => []
  | .cons c cs => textL c ++ textLF cs

end

/-- Go `len` on a string is its UTF-8 byte length; we carry text as
`List Char` and sum the UTF-8 sizes of the characters. -/
def utf8Len (l : List Char) : ℕ :=
  (l.map Char.utf8Size).sum

mutual

/-- All descendant element nodes of a node, in document (pre-)order,
excluding the node itself (`Selection.Find` semantics: descendants only). -/
def descElems : HNode → List HNode
  | .textN _ => []
  | .elem _ _ _ cs => descElemsF cs

/-- All element nodes in a forest and their descendant elements,
in document order. -/
def descElemsF : HForest → List HNode
  | .nil => []
  | .cons (.textN _) cs => descElemsF cs
  | .cons (.elem t c i ccs) cs =>
      .elem t c i ccs :: (descElemsF ccs ++ descElemsF cs)

end

/-- The tag of an element node (empty for text nodes, which `goquery.NodeName`
never reports as a tag in the passes modelled here). -/
def tagOf : HNode → String
  | .elem t _ _ _ => t
  | .textN _ => ""

/-- Is this node an element with the given tag? -/
def isTag (t : String) (n : HNode) : Bool :=
  match n with
  | .elem t' _ _ _ => t' = t
  | .textN _ => false

/-- The anchor (`a`) descendant elements of a node: `s.Find("a")`. -/
def anchors (n : HNode) : List HNode :=
  (descElems n).filter (isTag "a")

/-- Length of `s.Find("a").Text()`: goquery concatenates the text of each
matched node, so nested anchors are counted once per matched ancestor. -/
def linkLen (n : HNode) : ℕ :=
  ((anchors n).map (fun a => utf8Len (textL a))).sum

/-- `Document.getLinkDensity` (part_003 lines 434-443): anchor-text length
divided by total text length, 0 when the text length is 0. -/
def getLinkDensity (n : HNode) : ℚ :=
  let textLength := utf8Len (textL n)
  if textLength = 0 then 0
  else (linkLen n : ℚ) / (textLength : ℚ)

/-- Anchor elements occurring in a forest (matches of `Find("a")` relative
to a forest of children). -/
def anchorsF (f : HForest) : List HNode :=
  (descElemsF f).filter (isTag "a")

/-- Length of the concatenated text of the anchors of a forest. -/
def linkLenF (f : HForest) : ℕ :=
  ((anchorsF f).map (fun a => utf8Len (textL a))).sum

/-- No anchor element in the subtree contains another anchor element
(true of trees produced by the HTML5 parsing algorithm for ordinary
content, where `<a>` auto-closes an open `<a>`). -/
def noNestedAnchors (n : HNode) : Bool :=
  (anchors n).all (fun a => anchors a = [])

/-- Indexing into a forest (children are indexed left to right, text nodes
included, matching `*html.Node` child order). -/
def HForest.get? : HForest → ℕ → Option HNode
  | .nil, _ => none
  | .cons c _, 0 => some c
  | .cons _ cs, n + 1 => HForest.get? cs n

/-- Resolve a path (list of child indices) from a root node; paths are the
model of Go pointer identity for tree nodes. -/
def getPath : HNode → List ℕ → Option HNode
  | n, [] => some n
  | .elem _ _ _ cs, i :: is =>
      match HForest.get? cs i with
      | some c => getPath c is
      | none => none
  | .textN _, _ :: _ => none

mutual

/-- Paths (relative to the given node) of all descendants satisfying `p`,
in document order (the order `Selection.Find(...).Each` visits matches). -/
def findPaths (p : HNode → Bool) : HNode → List (List ℕ)
  | .textN _ => []
  | .elem _ _ _ cs => findPathsF p 0 cs

/-- Paths of matching nodes within a forest, children numbered from `i`. -/
def findPathsF (p : HNode → Bool) : ℕ → HForest → List (List ℕ)
  | _, .nil => []
  | i, .cons c cs =>
      ((if p c then [[i]] else []) ++ (findPaths p c).map (i :: ·))
        ++ findPathsF p (i + 1) cs

end

/-! ### Regexp vocabulary (part_003 lines 19-38)

Every regexp the engine matches against class/id probes or tag names is a
case-insensitive alternation of literal keywords, modelled as a
case-insensitive substring search over the keyword list. -/

/-- Is `needle` a prefix of `hay` (character lists)? -/
def leadMatch : List Char → List Char → Bool
  | [], _ => true
  | _ :: _, [] => false
  | a :: as, b :: bs => a = b && leadMatch as bs

/-- Does `hay` contain `needle` as a contiguous substring? -/
def containsSub (needle : List Char) : List Char → Bool
  | [] => leadMatch needle []
  | c :: cs => leadMatch needle (c :: cs) || containsSub needle cs

/-- Case-insensitive literal-alternation regexp match: some keyword occurs
in the lowercased probe (keywords are already lowercase in the source). -/
def matchAny (keys : List String) (probe : String) : Bool :=
  keys.any (fun k => containsSub k.data (probe.data.map Char.toLower))

/-- `blacklistCandidatesRegexp` (part_003 line 22). -/
def blMatch (s : String) : Bool :=
  matchAny ["popupbody"] s

/-- `okMaybeItsACandidateRegexp` (part_003 line 23). -/
def maybeMatch (s : String) : Bool :=
  matchAny ["and", "article", "body", "column", "main", "shadow"] s

/-- `unlikelyCandidatesRegexp` (part_003 line 24). -/
def unlikelyMatch (s : String) : Bool :=
  matchAny ["combx", "comment", "community", "hidden", "disqus", "modal",
    "extra", "foot", "header", "menu", "remark", "rss", "shoutbox",
    "sidebar", "sponsor", "ad-break", "agegate", "pagination", "pager",
    "popup", "share"] s

/-- `okMaybeItsAHeaderFooterRegexp` (part_003 line 27), matched against the
node name. -/
def hfMatch (s : String) : Bool :=
  matchAny ["header", "footer", "h1", "h2", "h3", "h4", "h5", "h6"] s

/-- `negativeRegexp` (part_003 line 29). -/
def negMatch (s : String) : Bool :=
  matchAny ["combx", "comment", "com-", "foot", "footer", "footnote",
    "masthead", "media", "meta", "outbrain", "promo", "related", "scroll",
    "shoutbox", "sidebar", "sponsor", "shopping", "tags", "tool",
    "widget"] s

/-- `positiveRegexp` (part_003 line 30). -/
def posMatch (s : String) : Bool :=
  matchAny ["article", "body", "content", "entry", "hentry", "main", "page",
    "pagination", "post", "text", "blog", "story"] s

/-- `sentenceRegexp` (part_003 line 34): a period followed by a space or by
the end of the string. -/
def sentenceMatch : List Char → Bool
  | [] => false
  | [c] => c = '.'
  | c :: c2 :: rest => (c = '.' && c2 = ' ') || sentenceMatch (c2 :: rest)

/-! ### Unlikely-candidate filtering (part_003 lines 353-365) -/

/-- The per-element removal decision of `removeUnlikelyCandidates`
(part_003 line 360): probe is `class + id`. -/
def shouldRemoveUnlikely (tag cls idA : String) : Bool :=
  let str := cls ++ idA
  blMatch str
    || (unlikelyMatch str && !maybeMatch str && !hfMatch tag)

mutual

/-- Net effect of the `Find("*").Not("html,title,body").Each(... removeNodes)`
pass on a node: elements (other than html/title/body-tagged ones) whose
class+id probe triggers the decision are excised together with their
subtrees; everything else is kept and filtered recursively. -/
def removeUnlikelyN : HNode → HNode
  | .textN s => .textN s
  | .elem t c i cs => .elem t c i (removeUnlikelyF cs)

/-- The filtering pass over a forest of children. -/
def removeUnlikelyF : HForest → HForest
  | .nil => .nil
  | .cons (.textN s) cs => .cons (.textN s) (removeUnlikelyF cs)
  | .cons (.elem t c i ccs) cs =>
      if t ≠ "html" ∧ t ≠ "title" ∧ t ≠ "body" ∧ shouldRemoveUnlikely t c i
      then removeUnlikelyF cs
      else .cons (.elem t c i (removeUnlikelyF ccs)) (removeUnlikelyF cs)

end

/-- `removeUnlikelyCandidates` runs only when the `RemoveUnlikelyCandidates`
flag is set (guard in `prepareCandidates`, part_003 lines 277-279). -/
def removeUnlikelyCandidates (flag : Bool) (root : HNode) : HNode :=
  if flag then removeUnlikelyN root else root

/-! ### Candidate scoring (part_003 lines 385-488) -/

/-- `Document.classWeight` (part_003 lines 445-475), as an exact integer.
`wc` is the `WeightClasses` flag. -/
def classWeight (wc : Bool) (tag cls idA : String) : ℤ :=
  if !wc then 0
  else
    (if cls ≠ "" then
        (if negMatch cls && !hfMatch tag then (-25 : ℤ) else 0)
          + (if posMatch cls then 25 else 0)
      else 0)
    + (if idA ≠ "" then
        (if negMatch idA && !hfMatch tag then (-25 : ℤ) else 0)
          + (if posMatch idA then 25 else 0)
      else 0)

/-- `Document.scoreNode` (part_003 lines 477-488): class weight plus a
tag-type adjustment (note `blockquote`/`form` overwrite the score with 3).
Text nodes never become candidates (only parents of found `p`/`td`
elements do); they score 0 here. -/
def scoreNodeQ (wc : Bool) (n : HNode) : ℚ :=
  match n with
  | .textN _ => 0
  | .elem tag cls idA _ =>
      let w : ℤ := classWeight wc tag cls idA
      if tag = "div" then ((w + 5 : ℤ) : ℚ)
      else if tag = "blockquote" ∨ tag = "form" then 3
      else if tag = "th" then ((w - 5 : ℤ) : ℚ)
      else (w : ℚ)

/-- Candidate map: association list from node identity (path) to score, in
insertion order (models `map[*html.Node]*candidate`). -/
abbrev CandMap : Type := List (List ℕ × ℚ)

/-- Score lookup by node identity. -/
def lookupSc (k : List ℕ) (m : CandMap) : Option ℚ :=
  match m.find? (fun e => e.1 = k) with
  | some e => some e.2
  | none => none

/-- Add `v` to the stored score of key `k` (`candidates[node].score += v`). -/
def addSc (k : List ℕ) (v : ℚ) (m : CandMap) : CandMap :=
  m.map (fun e => if e.1 = k then (e.1, e.2 + v) else e)

/-- Lazily create the candidate for key `k` via `scoreNode`
(part_003 lines 405-412). -/
def ensure (root : HNode) (wc : Bool) (k : List ℕ) (m : CandMap) : CandMap :=
  match lookupSc k m with
  | some _ => m
  | none =>
      match getPath root k with
      | some pn => m ++ [(k, scoreNodeQ wc pn)]
      | none => m

/-- Number of commas in the text (`strings.Count(text, ",")`). -/
def commaCount (text : List Char) : ℕ :=
  (text.filter (fun c => c = ',')).length

/-- The content score of a qualifying element's text
(part_003 lines 414-416): `1 + (commas + 1) + min(len/100, 3)` with
integer division. -/
def contentScoreOf (text : List Char) : ℚ :=
  ((1 + (commaCount text + 1) + min (utf8Len text / 100) 3 : ℕ) : ℚ)

/-- One iteration of the `Find("p,td").Each` loop of
`Document.scoreParagraphs` (part_003 lines 388-422) for the element at
`path`.  Elements shorter than `minLen` contribute nothing; otherwise the
parent (and grandparent, when the parent is not the root) candidates are
lazily created and credited with the content score (half for the
grandparent).  The `none` fall-through for an unresolvable path is
unreachable for paths produced by `findPaths`. -/
def spStep (root : HNode) (wc : Bool) (minLen : ℕ) (m : CandMap)
    (path : List ℕ) : CandMap :=
  match getPath root path with
  | none => m
  | some n =>
      let text := textL n
      if utf8Len text < minLen then m
      else
        let pp := path.dropLast
        let hasGp := 2 ≤ path.length
        let gp := pp.dropLast
        let m1 := ensure root wc pp m
        let m2 := if hasGp then ensure root wc gp m1 else m1
        let cs := contentScoreOf text
        let m3 := addSc pp cs m2
        if hasGp then addSc gp (cs / 2) m3 else m3

/-- The candidate map after the lazy creation of the parent (and, for
paths of length at least 2, grandparent) candidates performed by one
scoring step (part_003 lines 405-412). -/
def ensurePG (root : HNode) (wc : Bool) (path : List ℕ) (m : CandMap) :
    CandMap :=
  if 2 ≤ path.length then
    ensure root wc path.dropLast.dropLast (ensure root wc path.dropLast m)
  else ensure root wc path.dropLast m

/-- The final scaling of one candidate's score by `(1 - linkDensity)`
(part_003 lines 427-429). -/
def scaleStep (root : HNode) (e : List ℕ × ℚ) : List ℕ × ℚ :=
  let ld :=
    match getPath root e.1 with
    | some n => getLinkDensity n
    | none => 0
  (e.1, e.2 * (1 - ld))

/-- `p,td` element predicate for the scoring pass. -/
def isPTD (n : HNode) : Bool :=
  isTag "p" n || isTag "td" n

/-- `Document.scoreParagraphs` (part_003 lines 385-432): fold the scoring
step over all `p`/`td` descendants in document order, then scale every
candidate by `(1 - linkDensity)`. -/
def scoreParagraphs (root : HNode) (wc : Bool) (minLen : ℕ) : CandMap :=
  (((findPaths isPTD root).foldl (spStep root wc minLen) []).map
    (scaleStep root))

/-! ### Best-candidate selection (part_003 lines 286-302) -/

/-- `Document.selectBestCandidate`: linear scan keeping the first maximum
(`best.score < c.score` is strict), falling back to a fresh zero-score
candidate on the `body` element when the map is empty. -/
def selectBest (cands : CandMap) (bodyPath : List ℕ) : List ℕ × ℚ :=
  match cands.foldl
      (fun best c =>
        match best with
        | none => some c
        | some b => if b.2 < c.2 then some c else some b)
      (none : Option (List ℕ × ℚ)) with
  | some b => b
  | none => (bodyPath, 0)

/-- The inner fold of `selectBest` once a first candidate has been seen:
keep the incumbent unless a strictly higher score appears. -/
def pickBest (b : List ℕ × ℚ) (l : CandMap) : List ℕ × ℚ :=
  l.foldl (fun b c => if b.2 < c.2 then c else b) b

/-! ### Article assembly (part_003 lines 308-351) -/

/-- The sibling inclusion threshold (part_003 line 312):
`max(10, bestCandidate.score * 0.2)`. -/
def siblingThreshold (bestScore : ℚ) : ℚ :=
  max 10 (bestScore * (1 / 5))

/-- The per-sibling inclusion decision of `Document.getArticle`
(part_003 lines 315-334): `isBest` says the node is the best candidate,
`cand` is its entry in the candidate map (if any), `isP` whether the
element is a `p`, `text` its text and `ld` its link density.  Note that for
`p` elements the secondary test ASSIGNS the flag, so it can also revoke an
inclusion established by the first two checks. -/
def articleAppend (isBest : Bool) (cand : Option ℚ) (thr : ℚ) (isP : Bool)
    (text : List Char) (ld : ℚ) : Bool :=
  let app0 :=
    if isBest then true
    else
      match cand with
      | some sc => decide (thr ≤ sc)
      | none => false
  if isP then
    if 80 ≤ utf8Len text ∧ ld < 1 / 4 then true
    else if utf8Len text < 80 ∧ ld = 0 then sentenceMatch text
    else app0
  else app0

/-- The inclusion rule exactly as the specification claim states it: a pure
disjunction (included iff best candidate, or candidate score meets the
threshold, or the long-paragraph test, or the short-sentence-paragraph
test).  Written from the claim's words, for comparison with
`articleAppend`. -/
def articleAppendClaimed (isBest : Bool) (cand : Option ℚ) (thr : ℚ)
    (isP : Bool) (text : List Char) (ld : ℚ) : Bool :=
  isBest
    || (match cand with
        | some sc => decide (thr ≤ sc)
        | none => false)
    || (isP && decide (80 ≤ utf8Len text) && decide (ld < 1 / 4))
    || (isP && decide (utf8Len text < 80) && decide (ld = 0)
          && sentenceMatch text)

/-! ### Sanitizer whitelist flattening (part_003 lines 527-583) -/

/-- The `replaceWithWhitespace` literal of part_003 lines 528-545: only the
uncommented entries.  The `br`, `hr`, `h1`-`h6` and `blockquote` entries
present in the part_002 version (lines 387-404) are commented out in
part_003. -/
def rwwBase3 : List String :=
  ["dl", "dd", "ol", "li", "ul", "address", "center"]

/-- The default `WhitelistTags` of part_003 (`NewDocument`, line 71). -/
def whitelist3 : List String :=
  ["div", "p", "h1"]

/-- The replace-with-whitespace set after whitelisted tags are deleted from
it (part_003 lines 547-552). -/
def rwwSet (wl : List String) : List String :=
  rwwBase3.filter (fun t => decide (t ∉ wl))

/-- The replace-with-whitespace set as the specification claim describes it
(list/definition-list items, address, center, plus headers, breaks and
rules when not whitelisted), minus the whitelist.  Written from the claim's
words, for comparison with `rwwSet`. -/
def rwwSetClaimed (wl : List String) : List String :=
  (["dl", "dd", "ol", "li", "ul", "address", "center",
    "h1", "h2", "h3", "h4", "h5", "h6", "br", "hr"]).filter
    (fun t => decide (t ∉ wl))

/-- Forest concatenation. -/
def appendF : HForest → HForest → HForest
  | .nil, g => g
  | .cons c cs, g => .cons c (appendF cs g)

mutual

/-- Net effect of the whitelist-flattening walk of `Document.sanitize`
(part_003 lines 556-583) on one node: whitelisted elements are kept with
all attributes deleted; elements of the replace-with-whitespace set are
collapsed into a text node holding their own text padded with one leading
and one trailing space; every other element is spliced out and replaced by
its (recursively processed) children; text nodes are untouched (the walk
skips non-element nodes). -/
def flattenN (wl rww : List String) : HNode → HForest
  | .textN s => .cons (.textN s) .nil
  | .elem t _ _ cs =>
      if t ∈ wl then .cons (.elem t "" "" (flattenF wl rww cs)) .nil
      else if t ∈ rww then
        .cons (.textN (" " ++ (textLF cs).asString ++ " ")) .nil
      else flattenF wl rww cs

/-- The flattening walk over a forest of children. -/
def flattenF (wl rww : List String) : HForest → HForest
  | .nil => .nil
  | .cons c cs => appendF (flattenN wl rww c) (flattenF wl rww cs)

end

/-! ### The Content() state machine

`Content` (part_002 lines 107-140, part_003 lines 112-151) is modelled as
a function of an explicit document state.  The pipeline body
(`prepareCandidates` + `getArticle` + `sanitize`, which mutates the tree
and produces the article text) and `initializeHtml`'s re-parse of the
original input are taken as parameters, so every theorem below holds for
every possible pipeline behaviour; the third result component is a ghost
log of the (tree, flags) arguments of each full pipeline execution. -/

/-- The three relaxable configuration flags. -/
structure Flags where
  ru : Bool
  wc : Bool
  cc : Bool
  deriving Repr, DecidableEq

/-- How many flags are still on. -/
def trueCount (f : Flags) : ℕ :=
  (if f.ru then 1 else 0) + (if f.wc then 1 else 0) + (if f.cc then 1 else 0)

/-- Relax exactly one flag, in the fixed order `RemoveUnlikelyCandidates`,
`WeightClasses`, `CleanConditionally` (part_002 lines 118-127). -/
def relax (f : Flags) : Flags :=
  if f.ru then { f with ru := false }
  else if f.wc then { f with wc := false }
  else { f with cc := false }

/-- The fields of `Document` that the `Content` control flow reads and
writes: original input, current tree, memoized content, flags and
`RetryLength`. -/
structure DocSt where
  input : String
  tree : HNode
  content : String
  flags : Flags
  retryLength : ℕ
  deriving Repr, DecidableEq

/-- Whitespace class used by `strings.TrimSpace` (`unicode.IsSpace`),
restricted to the Latin-1 range. -/
def isSpaceGo (c : Char) : Bool :=
  c = ' ' || c = '\t' || c = '\n' || c = (Char.ofNat 11) || c = (Char.ofNat 12)
    || c = '\r' || c = (Char.ofNat 0x85) || c = (Char.ofNat 0xA0)

/-- Length of `strings.TrimSpace(s)` in bytes (part_002 line 114). -/
def goTrimLen (s : String) : ℕ :=
  utf8Len (((s.data.dropWhile isSpaceGo).reverse.dropWhile isSpaceGo))

/-- `Document.Content` of part_002 (lines 107-140), the version whose retry
loop is reachable.  `parse` models `initializeHtml(d.input)` rebuilding the
tree from the preprocessed original input (its error is discarded by the
source, and the original input parsed successfully once, so the re-parse is
total); `pipe` models one full pipeline execution
(`prepareCandidates` + `getArticle` + `sanitize`) returning the article
text and the destructively mutated tree.  The Go recursion terminates
because each retry turns one more flag off; the fuel argument is bounded
by `trueCount + 1 ≤ 4`, so fuel 4 (see `contentV2`) never runs out. -/
def contentV2Aux (parse : String → HNode)
    (pipe : HNode → Flags → String × HNode) :
    ℕ → DocSt → String × DocSt × List (HNode × Flags)
  | 0, d => (d.content, d, [])
  | fuel + 1, d =>
      if d.content ≠ "" then (d.content, d, [])
      else
        let pr := pipe d.tree d.flags
        let d1 : DocSt := { d with tree := pr.2 }
        if goTrimLen pr.1 < d1.retryLength then
          if d1.flags.ru || d1.flags.wc || d1.flags.cc then
            let d2 : DocSt :=
              { d1 with flags := relax d1.flags, tree := parse d1.input }
            let r := contentV2Aux parse pipe fuel d2
            (r.1, { r.2.1 with content := r.1 }, (d.tree, d.flags) :: r.2.2)
          else
            (pr.1, { d1 with content := pr.1 }, [(d.tree, d.flags)])
        else (pr.1, { d1 with content := pr.1 }, [(d.tree, d.flags)])

/-- `Document.Content` of part_002 with the fuel instantiated at its bound. -/
def contentV2 (parse : String → HNode)
    (pipe : HNode → Flags → String × HNode) (d : DocSt) :
    String × DocSt × List (HNode × Flags) :=
  contentV2Aux parse pipe 4 d

/-- `Document.Content` of part_003 (lines 112-151).  The live code removes
the non-title head children, runs `rateElements`, serializes the document
and RETURNS at line 120; lines 122-147 (the candidate pipeline, the retry
loop and every assignment to `d.content`) are unreachable.  `headClean`
and `rate` model the two tree mutations, `htmlOf` the `d.document.Html()`
serialization; the ghost log of full pipeline executions is empty because
`prepareCandidates`/`getArticle`/`sanitize` are never invoked. -/
def contentV3 (headClean rate : HNode → HNode) (htmlOf : HNode → String)
    (d : DocSt) : String × DocSt × List (HNode × Flags) :=
  if d.content ≠ "" then (d.content, d, [])
  else
    let t := rate (headClean d.tree)
    (htmlOf t, { d with tree := t }, [])

/-! ### Document creation (part_003 lines 68-110) -/

/-- Does the parsed tree contain a `body` element
(`doc.Find("body").Length() == 0` check, part_003 line 103)? -/
def hasBody (root : HNode) : Bool :=
  (descElems root).any (isTag "body")

/-- Modelled from the spec: the external Tree Provider contract (spec §4.2,
§6) is `parse(text) -> Tree | ParseError`, and the Preprocessor (spec §4.1)
is a total deterministic string transform; both are parameters below
because the goquery/x-net-html parser and the regexp engine are external
collaborators, not part of this repository.  `initializeHtml`
(part_003 lines 87-110) preprocesses, parses, and on a tree with no `body`
element re-enters itself on the synthesized placeholder `"<body/>"`; the
fuel argument models the recursion depth (2 suffices whenever the
placeholder parses to a tree with a body, which the Tree Provider contract
guarantees; `.ok none` marks the contract-violating divergence). -/
def initHtmlF {E : Type} (pre : String → String)
    (parse : String → Except E HNode) :
    ℕ → String → Except E (Option HNode)
  | 0, _ => .ok none
  | fuel + 1, s =>
      match parse (pre s) with
      | .error e => .error e
      | .ok doc =>
          if hasBody doc then .ok (some doc)
          else initHtmlF pre parse fuel "<body/>"

/-- `NewDocument` (part_003 lines 68-85): fails exactly when
`initializeHtml` does. -/
def newDocument {E : Type} (pre : String → String)
    (parse : String → Except E HNode) (s : String) :
    Except E (Option HNode) :=
  initHtmlF pre parse 2 s

/-- The first-two-checks base decision of `getArticle` (part_003 lines
318-322): the node is the best candidate, or its candidate score meets the
threshold. -/
def baseApp (isBest : Bool) (cand : Option ℚ) (thr : ℚ) : Bool :=
  isBest
    || (match cand with
        | some sc => decide (thr ≤ sc)
        | none => false)

/-! ### Concrete instances used by witnesses and counterexamples -/

/-- A `div` holding an anchor nested inside an anchor (producible from, for
example, SVG foreign content); `Find("a")` matches both anchors and
`Selection.Text` counts the inner text once per match. -/
def nestedT : HNode :=
  eN "div" "" "" [eN "a" "" "" [eN "a" "" "" [tN "xx"]]]

/-- A div with one anchor next to plain text (no nesting): 2 bytes of
anchor text out of 6 bytes of text. -/
def linkT : HNode :=
  eN "div" "" "" [eN "a" "" "" [tN "xx"], tN "yyyy"]

/-- A small document with a single scorable paragraph. -/
def root1 : HNode :=
  eN "html" "" ""
    [eN "body" "" ""
      [eN "div" "" ""
        [eN "p" "" "" [tN "Lorem ipsum dolor sit amet, abcdefghi"]]]]

/-- A document with a sidebar-classed div next to a content div. -/
def sbT : HNode :=
  eN "html" "" ""
    [eN "body" "" ""
      [eN "div" "sidebar" "" [tN "junk"], eN "div" "" "" [tN "keep"]]]

/-- A paragraph whose fragments are separated only by a `br` element. -/
def demoP : HNode :=
  eN "p" "" "" [tN "a", eN "br" "" "" [], tN "b"]

/-- A trivial tree standing in for an arbitrary parsed document. -/
def t0 : HNode :=
  tN ""

/-- A re-parse that always yields `t0`. -/
def parse0 : String → HNode :=
  fun _ => t0

/-- A pipeline whose article text is always empty. -/
def pipe0 : HNode → Flags → String × HNode :=
  fun t _ => ("", t)

/-- A pipeline whose article text is always a fixed long string. -/
def pipe1 : HNode → Flags → String × HNode :=
  fun t _ => ("this is a long enough article text", t)

/-- A fresh document state with the default strict flags and the default
`RetryLength` of 250. -/
def d0 : DocSt :=
  { input := "x", tree := t0, content := "",
    flags := { ru := true, wc := true, cc := true }, retryLength := 250 }

/-- A fresh document state with a small `RetryLength`. -/
def d1 : DocSt :=
  { input := "x", tree := t0, content := "",
    flags := { ru := true, wc := true, cc := true }, retryLength := 5 }

/-- A parsed-tree fixture that contains a `body` element. -/
def bodyT : HNode :=
  eN "html" "" "" [eN "body" "" "" []]

/-- A parsed-tree fixture with no `body` element. -/
def nobodyT : HNode :=
  eN "html" "" "" []

/-- A Tree Provider fixture: fails on `"BAD"`, yields a bodyless tree on
`"NOBODY"`, and a tree with a body on everything else (in particular on
the synthesized `"<body/>"` placeholder). -/
def parse9 : String → Except String HNode :=
  fun s =>
    if s = "BAD" then .error "oops"
    else if s = "NOBODY" then .ok nobodyT
    else .ok bodyT

/-! ## Theorems -/

/-! ### C4 — unlikely-candidate filtering -/

mutual

theorem ruN_sound : ∀ (n : HNode) (m : HNode) (t c i : String) (ccs : HForest),
    m ∈ descElems (removeUnlikelyN n) → m = .elem t c i ccs →
    t = "html" ∨ t = "title" ∨ t = "body" ∨ shouldRemoveUnlikely t c i = false
  | .textN s => by
      intro m t c i ccs hm _
      simp [removeUnlikelyN, descElems] at hm
  | .elem tg cc ii cs => by
      intro m t c i ccs hm he
      simp only [removeUnlikelyN, descElems] at hm
      exact ruF_sound cs m t c i ccs hm he

theorem ruF_sound : ∀ (f : HForest) (m : HNode) (t c i : String) (ccs : HForest),
    m ∈ descElemsF (removeUnlikelyF f) → m = .elem t c i ccs →
    t = "html" ∨ t = "title" ∨ t = "body" ∨ shouldRemoveUnlikely t c i = false
  | .nil => by
      intro m t c i ccs hm _
      simp [removeUnlikelyF, descElemsF] at hm
  | .cons (.textN s) cs => by
      intro m t c i ccs hm he
      simp only [removeUnlikelyF, descElemsF] at hm
      exact ruF_sound cs m t c i ccs hm he
  | .cons (.elem tg cc ii ccs0) cs => by
      intro m t c i ccs hm he
      simp only [removeUnlikelyF] at hm
      by_cases hg : tg ≠ "html" ∧ tg ≠ "title" ∧ tg ≠ "body" ∧ shouldRemoveUnlikely tg cc ii
      · rw [if_pos hg] at hm
        exact ruF_sound cs m t c i ccs hm he
      · rw [if_neg hg] at hm
        simp only [descElemsF, List.mem_cons, List.mem_append] at hm
        rcases hm with hm | hm | hm
        · subst he
          injection hm with h1 h2 h3 _
          subst h1; subst h2; subst h3
          push_neg at hg
          by_cases h1 : t = "html"
          · exact Or.inl h1
          by_cases h2 : t = "title"
          · exact Or.inr (Or.inl h2)
          by_cases h3 : t = "body"
          · exact Or.inr (Or.inr (Or.inl h3))
          · exact Or.inr (Or.inr (Or.inr (by
              have := hg h1 h2 h3
              simpa using this)))
        · exact ruF_sound ccs0 m t c i ccs hm he
        · exact ruF_sound cs m t c i ccs hm he

end

mutual

theorem ruN_id : ∀ (n : HNode),
    (∀ (m : HNode) (t c i : String) (ccs : HForest), m ∈ descElems n →
      m = .elem t c i ccs →
      t = "html" ∨ t = "title" ∨ t = "body" ∨
        shouldRemoveUnlikely t c i = false) →
    removeUnlikelyN n = n
  | .textN s => by
      intro _
      simp [removeUnlikelyN]
  | .elem tg cc ii cs => by
      intro h
      simp only [removeUnlikelyN, HNode.elem.injEq, true_and]
      exact ruF_id cs (by
        intro m t c i ccs hm he
        exact h m t c i ccs (by simpa [descElems] using hm) he)

theorem ruF_id : ∀ (f : HForest),
    (∀ (m : HNode) (t c i : String) (ccs : HForest), m ∈ descElemsF f →
      m = .elem t c i ccs →
      t = "html" ∨ t = "title" ∨ t = "body" ∨
        shouldRemoveUnlikely t c i = false) →
    removeUnlikelyF f = f
  | .nil => by
      intro _
      simp [removeUnlikelyF]
  | .cons (.textN s) cs => by
      intro h
      simp only [removeUnlikelyF, HForest.cons.injEq, true_and]
      exact ruF_id cs (by
        intro m t c i ccs hm he
        exact h m t c i ccs (by simp [descElemsF]; exact hm) he)
  | .cons (.elem tg cc ii ccs0) cs => by
      intro h
      have hhead := h (.elem tg cc ii ccs0) tg cc ii ccs0
        (by simp [descElemsF]) rfl
      have hg : ¬(tg ≠ "html" ∧ tg ≠ "title" ∧ tg ≠ "body" ∧
          shouldRemoveUnlikely tg cc ii) := by
        rcases hhead with h1 | h1 | h1 | h1 <;> simp [h1]
      simp only [removeUnlikelyF, if_neg hg, HForest.cons.injEq,
        HNode.elem.injEq, true_and]
      constructor
      · exact ruF_id ccs0 (by
          intro m t c i ccs hm he
          exact h m t c i ccs (by simp [descElemsF, hm]) he)
      · exact ruF_id cs (by
          intro m t c i ccs hm he
          exact h m t c i ccs (by simp [descElemsF, hm]) he)

end

/-- C4: when `RemoveUnlikelyCandidates` is enabled, for every element other
than the html/body/title-tagged ones the filter concatenates the class and
id values and removes the element iff the probe matches the blacklist
pattern (not overridable by the maybe-a-candidate pattern), or it matches
the unlikely pattern, does not match the maybe-a-candidate pattern, and the
tag is not a header/footer/heading tag; with the flag disabled the pass
removes nothing.  Conjuncts: the decision characterization, the
blacklist-override fact, the disabled-flag identity, soundness (no element
surviving the pass still triggers the decision) and completeness (a tree
with no triggering element is left untouched). -/
theorem claim_C4_removeUnlikely :
    (∀ tag cls idA, shouldRemoveUnlikely tag cls idA = true ↔
        (blMatch (cls ++ idA) = true ∨
          (unlikelyMatch (cls ++ idA) = true ∧ maybeMatch (cls ++ idA) = false
            ∧ hfMatch tag = false)))
    ∧ (∀ tag cls idA, blMatch (cls ++ idA) = true →
        shouldRemoveUnlikely tag cls idA = true)
    ∧ (∀ root, removeUnlikelyCandidates false root = root)
    ∧ (∀ (root m : HNode) (t c i : String) (ccs : HForest),
        m ∈ descElems (removeUnlikelyCandidates true root) →
        m = .elem t c i ccs →
        t = "html" ∨ t = "title" ∨ t = "body" ∨
          shouldRemoveUnlikely t c i = false)
    ∧ (∀ root : HNode,
        (∀ (m : HNode) (t c i : String) (ccs : HForest), m ∈ descElems root →
          m = .elem t c i ccs →
          t = "html" ∨ t = "title" ∨ t = "body" ∨
            shouldRemoveUnlikely t c i = false) →
        removeUnlikelyCandidates true root = root) := by
  refine ⟨?_, ?_, ?_, ?_, ?_⟩
  · intro tag cls idA
    simp only [shouldRemoveUnlikely, Bool.or_eq_true, Bool.and_eq_true,
      Bool.not_eq_true']
    tauto
  · intro tag cls idA h
    simp [shouldRemoveUnlikely, h]
  · intro root
    simp [removeUnlikelyCandidates]
  · intro root m t c i ccs hm he
    rw [show removeUnlikelyCandidates true root = removeUnlikelyN root from rfl]
      at hm
    exact ruN_sound root m t c i ccs hm he
  · intro root h
    rw [show removeUnlikelyCandidates true root = removeUnlikelyN root from rfl]
    exact ruN_id root h

/-- Witness for C4 at concrete inputs: a probe containing the blacklist
keyword is removed even though it also matches the maybe-a-candidate
pattern; the disabled pass is the identity on the sidebar fixture; and the
surviving content div of the sidebar fixture does not trigger the removal
decision. -/
theorem claim_C4_removeUnlikely_witness :
    shouldRemoveUnlikely "div" "popupbody" "article" = true
    ∧ removeUnlikelyCandidates false sbT = sbT
    ∧ ("div" = "html" ∨ "div" = "title" ∨ "div" = "body" ∨
        shouldRemoveUnlikely "div" "" "" = false) :=
  ⟨claim_C4_removeUnlikely.2.1 "div" "popupbody" "article" (by decide),
   claim_C4_removeUnlikely.2.2.1 sbT,
   claim_C4_removeUnlikely.2.2.2.1 sbT
     (HNode.elem "div" "" "" (HForest.ofList [tN "keep"])) "div" "" ""
     (HForest.ofList [tN "keep"]) (by decide) rfl⟩

/-! ### C5 — best-candidate selection -/

theorem selFold_some (l : CandMap) (b : List ℕ × ℚ) :
    l.foldl
      (fun best c =>
        match best with
        | none => some c
        | some bb => if bb.2 < c.2 then some c else some bb)
      (some b) = some (pickBest b l) := by
  induction l generalizing b with
  | nil => rfl
  | cons c l ih =>
      by_cases h : b.2 < c.2 <;>
        simpa [List.foldl_cons, pickBest, h] using
          ih (if b.2 < c.2 then c else b)

theorem pickBest_spec (l : CandMap) (b : List ℕ × ℚ) :
    b.2 ≤ (pickBest b l).2
    ∧ (∀ c ∈ l, c.2 ≤ (pickBest b l).2)
    ∧ (pickBest b l = b ∨
        ∃ pre post, l = pre ++ (pickBest b l) :: post
          ∧ b.2 < (pickBest b l).2
          ∧ ∀ x ∈ pre, x.2 < (pickBest b l).2) := by
  induction l generalizing b with
  | nil =>
      refine ⟨le_refl _, by simp, Or.inl rfl⟩
  | cons c l ih =>
      have hstep : pickBest b (c :: l) =
          pickBest (if b.2 < c.2 then c else b) l := rfl
      by_cases h : b.2 < c.2
      · rw [hstep, if_pos h]
        obtain ⟨h1, h2, h3⟩ := ih c
        refine ⟨le_of_lt (lt_of_lt_of_le h h1), ?_, ?_⟩
        · intro x hx
          rcases List.mem_cons.mp hx with hx | hx
          · subst hx; exact h1
          · exact h2 x hx
        · rcases h3 with h3 | ⟨pre, post, heq, hlt, hpre⟩
          · refine Or.inr ⟨[], l, ?_, ?_, by simp⟩
            · rw [List.nil_append, h3]
            · rw [h3]; exact h
          · refine Or.inr ⟨c :: pre, post, ?_, lt_trans h hlt, ?_⟩
            · rw [List.cons_append]
              exact congrArg (fun t => c :: t) heq
            · intro x hx
              rcases List.mem_cons.mp hx with hx | hx
              · subst hx; exact hlt
              · exact hpre x hx
      · rw [hstep, if_neg h]
        obtain ⟨h1, h2, h3⟩ := ih b
        push_neg at h
        refine ⟨h1, ?_, ?_⟩
        · intro x hx
          rcases List.mem_cons.mp hx with hx | hx
          · subst hx; exact le_trans h h1
          · exact h2 x hx
        · rcases h3 with h3 | ⟨pre, post, heq, hlt, hpre⟩
          · exact Or.inl h3
          · refine Or.inr ⟨c :: pre, post, ?_, hlt, ?_⟩
            · rw [List.cons_append]
              exact congrArg (fun t => c :: t) heq
            · intro x hx
              rcases List.mem_cons.mp hx with hx | hx
              · subst hx; exact lt_of_le_of_lt h hlt
              · exact hpre x hx

/-- C5: `selectBestCandidate` always produces an article root: on a
non-empty candidate map it selects an entry whose score is greater than or
equal to every score in the map, and that entry is the first
maximal-score entry in iteration order (everything encountered before it
scores strictly less); on an empty map it fabricates the candidate
`(body, 0)`. -/
theorem claim_C5_selectBest :
    (∀ bodyPath, selectBest [] bodyPath = (bodyPath, 0))
    ∧ (∀ (cands : CandMap) (bodyPath : List ℕ), cands ≠ [] →
        selectBest cands bodyPath ∈ cands
        ∧ (∀ c ∈ cands, c.2 ≤ (selectBest cands bodyPath).2)
        ∧ ∃ pre post, cands = pre ++ (selectBest cands bodyPath) :: post
            ∧ ∀ x ∈ pre, x.2 < (selectBest cands bodyPath).2) := by
  constructor
  · intro bodyPath; rfl
  · intro cands bodyPath hne
    match cands with
    | [] => exact absurd rfl hne
    | c :: l =>
        have hsel : selectBest (c :: l) bodyPath = pickBest c l := by
          simp only [selectBest, List.foldl_cons]
          rw [selFold_some l c]
        obtain ⟨h1, h2, h3⟩ := pickBest_spec l c
        rw [hsel]
        generalize hgen : pickBest c l = r at h1 h2 h3 ⊢
        refine ⟨?_, ?_, ?_⟩
        · rcases h3 with h3 | ⟨pre, post, heq, _, _⟩
          · rw [h3]; exact List.mem_cons_self c l
          · rw [heq]
            exact List.mem_cons_of_mem c (by simp)
        · intro x hx
          rcases List.mem_cons.mp hx with hx | hx
          · subst hx; exact h1
          · exact h2 x hx
        · rcases h3 with h3 | ⟨pre, post, heq, hlt, hpre⟩
          · exact ⟨[], l, by rw [List.nil_append, h3], by simp⟩
          · refine ⟨c :: pre, post, ?_, ?_⟩
            · rw [List.cons_append]
              exact congrArg (fun t => c :: t) heq
            · intro x hx
              rcases List.mem_cons.mp hx with hx | hx
              · subst hx; exact hlt
              · exact hpre x hx

/-- Witness for C5: on the concrete map with scores 3, 7, 7 the selection
is the first entry scoring 7, every score is bounded by it, and on the
empty map the fabricated body candidate is returned. -/
theorem claim_C5_selectBest_witness :
    selectBest [] [9] = ([9], 0)
    ∧ selectBest [([0], 3), ([1], 7), ([2], 7)] [9]
        ∈ [([0], 3), ([1], 7), ([2], 7)]
    ∧ (∀ c ∈ [([0], 3), ([1], 7), ([2], (7 : ℚ))], c.2 ≤
        (selectBest [([0], 3), ([1], 7), ([2], 7)] [9]).2) :=
  ⟨claim_C5_selectBest.1 [9],
   (claim_C5_selectBest.2 [([0], 3), ([1], 7), ([2], 7)] [9] (by decide)).1,
   (claim_C5_selectBest.2 [([0], 3), ([1], 7), ([2], 7)] [9] (by decide)).2.1⟩

/-! ### C3 — paragraph scoring -/

theorem lookupSc_addSc_self (k : List ℕ) (v : ℚ) (m : CandMap) :
    lookupSc k (addSc k v m) = (lookupSc k m).map (· + v) := by
  induction m with
  | nil => rfl
  | cons e m ih =>
      simp only [addSc, List.map_cons]
      by_cases h : e.1 = k
      · rw [if_pos h]
        simp only [lookupSc]
        rw [List.find?_cons_of_pos _ (by simp [h]),
          List.find?_cons_of_pos _ (by simp [h])]
        simp
      · rw [if_neg h]
        simp only [lookupSc]
        rw [List.find?_cons_of_neg _ (by simp [h]),
          List.find?_cons_of_neg _ (by simp [h])]
        simp only [lookupSc, addSc] at ih
        exact ih

theorem lookupSc_addSc_ne (k k' : List ℕ) (v : ℚ) (m : CandMap)
    (h : k' ≠ k) : lookupSc k' (addSc k v m) = lookupSc k' m := by
  induction m with
  | nil => rfl
  | cons e m ih =>
      simp only [addSc, List.map_cons]
      by_cases he : e.1 = k
      · have he' : ¬ e.1 = k' := by
          rw [he]; exact fun hh => h hh.symm
        rw [if_pos he]
        simp only [lookupSc]
        rw [List.find?_cons_of_neg _ (by simp [he']),
          List.find?_cons_of_neg _ (by simp [he'])]
        simp only [lookupSc, addSc] at ih
        exact ih
      · rw [if_neg he]
        by_cases he2 : e.1 = k'
        · simp only [lookupSc]
          rw [List.find?_cons_of_pos _ (by simp [he2]),
            List.find?_cons_of_pos _ (by simp [he2])]
        · simp only [lookupSc]
          rw [List.find?_cons_of_neg _ (by simp [he2]),
            List.find?_cons_of_neg _ (by simp [he2])]
          simp only [lookupSc, addSc] at ih
          exact ih

theorem dropLast_ne_dropLast_dropLast (path : List ℕ) (h : 2 ≤ path.length) :
    path.dropLast ≠ path.dropLast.dropLast := by
  intro heq
  have h1 := List.length_dropLast path
  have h2 := List.length_dropLast path.dropLast
  have h3 := congrArg List.length heq
  omega

/-- C3: for every `p`/`td` element whose text length is at least the
minimum, one step of `scoreParagraphs` computes the content score
`1 + (commas + 1) + min(len/100, 3)`, adds the full amount to the parent
candidate's score and half of it to the grandparent candidate's score
(when the parent is not the document root), leaving every other entry of
the (lazily extended) candidate map untouched; an element whose text
length is below the minimum contributes nothing at all. -/
theorem claim_C3_scoreParagraphs :
    ∀ (root : HNode) (wc : Bool) (minLen : ℕ) (m : CandMap) (path : List ℕ)
      (n : HNode), getPath root path = some n →
    (utf8Len (textL n) < minLen → spStep root wc minLen m path = m)
    ∧ (minLen ≤ utf8Len (textL n) →
        contentScoreOf (textL n) =
          ((1 + (commaCount (textL n) + 1)
            + min (utf8Len (textL n) / 100) 3 : ℕ) : ℚ)
        ∧ lookupSc path.dropLast (spStep root wc minLen m path)
            = (lookupSc path.dropLast (ensurePG root wc path m)).map
                (· + contentScoreOf (textL n))
        ∧ (2 ≤ path.length →
            lookupSc path.dropLast.dropLast (spStep root wc minLen m path)
              = (lookupSc path.dropLast.dropLast
                  (ensurePG root wc path m)).map
                  (· + contentScoreOf (textL n) / 2))
        ∧ (∀ k, k ≠ path.dropLast → k ≠ path.dropLast.dropLast →
            lookupSc k (spStep root wc minLen m path)
              = lookupSc k (ensurePG root wc path m))) := by
  intro root wc minLen m path n hget
  constructor
  · intro hlt
    simp only [spStep, hget]
    rw [if_pos hlt]
  · intro hge
    have hnot : ¬ utf8Len (textL n) < minLen := not_lt.mpr hge
    refine ⟨rfl, ?_, ?_, ?_⟩
    · by_cases hgp : 2 ≤ path.length
      · have hne := dropLast_ne_dropLast_dropLast path hgp
        simp only [spStep, hget, ensurePG]
        rw [if_neg hnot, if_pos hgp,
          lookupSc_addSc_ne _ _ _ _ hne, lookupSc_addSc_self]
      · simp only [spStep, hget, ensurePG]
        rw [if_neg hnot, if_neg hgp, lookupSc_addSc_self]
    · intro hgp
      have hne := dropLast_ne_dropLast_dropLast path hgp
      simp only [spStep, hget, ensurePG]
      rw [if_neg hnot, if_pos hgp, lookupSc_addSc_self,
        lookupSc_addSc_ne _ _ _ _ (Ne.symm hne)]
    · intro k hk1 hk2
      by_cases hgp : 2 ≤ path.length
      · simp only [spStep, hget, ensurePG]
        rw [if_neg hnot, if_pos hgp,
          lookupSc_addSc_ne _ _ _ _ hk2, lookupSc_addSc_ne _ _ _ _ hk1]
      · simp only [spStep, hget, ensurePG]
        rw [if_neg hnot, if_neg hgp, lookupSc_addSc_ne _ _ _ _ hk1]

/-- Witness for C3 on the concrete document `root1`: a minimum of 100
makes the 37-byte paragraph contribute nothing; with the default minimum
of 25, the parent (`div`) entry receives exactly the content score on top
of its lazily created base entry. -/
theorem claim_C3_scoreParagraphs_witness :
    spStep root1 true 100 [] [0, 0, 0] = []
    ∧ lookupSc [0, 0] (spStep root1 true 25 [] [0, 0, 0])
        = (lookupSc [0, 0] (ensurePG root1 true [0, 0, 0] [])).map
            (· + contentScoreOf (textL
              (eN "p" "" "" [tN "Lorem ipsum dolor sit amet, abcdefghi"]))) :=
  ⟨(claim_C3_scoreParagraphs root1 true 100 []
      [0, 0, 0] (eN "p" "" "" [tN "Lorem ipsum dolor sit amet, abcdefghi"])
      (by decide)).1 (by decide),
   ((claim_C3_scoreParagraphs root1 true 25 []
      [0, 0, 0] (eN "p" "" "" [tN "Lorem ipsum dolor sit amet, abcdefghi"])
      (by decide)).2 (by decide)).2.1⟩

/-! ### C7 — link density -/

theorem utf8Len_append (a b : List Char) :
    utf8Len (a ++ b) = utf8Len a + utf8Len b := by
  simp [utf8Len]

theorem anchors_elem (t c i : String) (cs : HForest) :
    anchors (.elem t c i cs) = anchorsF cs := rfl

theorem anchorsF_cons_text (s : String) (cs : HForest) :
    anchorsF (.cons (.textN s) cs) = anchorsF cs := rfl

theorem anchorsF_cons_elem (t c i : String) (ccs cs : HForest) :
    anchorsF (.cons (.elem t c i ccs) cs)
      = (if t = "a" then [HNode.elem t c i ccs] else [])
          ++ (anchorsF ccs ++ anchorsF cs) := by
  by_cases h : t = "a" <;>
    simp [anchorsF, descElemsF, List.filter_cons, List.filter_append,
      isTag, h]

theorem linkLen_elem (t c i : String) (cs : HForest) :
    linkLen (.elem t c i cs) = linkLenF cs := rfl

mutual

theorem linkLen_le_text : ∀ n : HNode,
    (∀ a ∈ anchors n, anchors a = []) → linkLen n ≤ utf8Len (textL n)
  | .textN s => by
      intro _
      simp [linkLen, anchors, descElems]
  | .elem t c i cs => by
      intro h
      rw [linkLen_elem]
      rw [show textL (.elem t c i cs) = textLF cs from rfl]
      exact linkLenF_le_text cs (by
        intro a ha
        exact h a (by rw [anchors_elem]; exact ha))

theorem linkLenF_le_text : ∀ f : HForest,
    (∀ a ∈ anchorsF f, anchors a = []) → linkLenF f ≤ utf8Len (textLF f)
  | .nil => by
      intro _
      simp [linkLenF, anchorsF, descElemsF, textLF, utf8Len]
  | .cons (.textN s) cs => by
      intro h
      have ih := linkLenF_le_text cs (by
        intro a ha
        exact h a (by rw [anchorsF_cons_text]; exact ha))
      rw [show linkLenF (.cons (.textN s) cs) = linkLenF cs from rfl]
      rw [show textLF (.cons (.textN s) cs) = s.data ++ textLF cs from rfl]
      rw [utf8Len_append]
      omega
  | .cons (.elem t c i ccs) cs => by
      intro h
      have hcons := anchorsF_cons_elem t c i ccs cs
      have htext : textLF (.cons (.elem t c i ccs) cs)
          = textLF ccs ++ textLF cs := rfl
      have hlink : linkLenF (.cons (.elem t c i ccs) cs)
          = ((anchorsF (.cons (.elem t c i ccs) cs)).map
              (fun a => utf8Len (textL a))).sum := rfl
      by_cases ha : t = "a"
      · have hmem : HNode.elem t c i ccs ∈
            anchorsF (.cons (.elem t c i ccs) cs) := by
          rw [hcons, if_pos ha]; simp
        have hccs : anchorsF ccs = [] := by
          have := h _ hmem
          rwa [anchors_elem] at this
        have ih := linkLenF_le_text cs (by
          intro a hamem
          exact h a (by rw [hcons]; simp [hamem]))
        rw [hlink, hcons, if_pos ha, hccs]
        simp only [List.nil_append, List.singleton_append, List.map_cons,
          List.sum_cons]
        rw [htext, utf8Len_append]
        have hteq : textL (.elem t c i ccs) = textLF ccs := rfl
        rw [hteq]
        have hsum : ((anchorsF cs).map (fun a => utf8Len (textL a))).sum
            = linkLenF cs := rfl
        rw [hsum]
        omega
      · have ihc := linkLenF_le_text ccs (by
          intro a hamem
          exact h a (by rw [hcons]; simp [hamem]))
        have ih := linkLenF_le_text cs (by
          intro a hamem
          exact h a (by rw [hcons]; simp [hamem]))
        rw [hlink, hcons, if_neg ha]
        simp only [List.nil_append, List.map_append, List.sum_append]
        rw [htext, utf8Len_append]
        have h1 : ((anchorsF ccs).map (fun a => utf8Len (textL a))).sum
            = linkLenF ccs := rfl
        have h2 : ((anchorsF cs).map (fun a => utf8Len (textL a))).sum
            = linkLenF cs := rfl
        rw [h1, h2]
        omega

end

theorem noNested_mem (n : HNode) (h : noNestedAnchors n = true) :
    ∀ a ∈ anchors n, anchors a = [] := by
  intro a ha
  have := List.all_eq_true.mp h a ha
  simpa using this

/-- C7 (amended): `getLinkDensity` is total and non-negative, returns
exactly 0 on zero-length text, and whenever no anchor of the element nests
inside another anchor its value lies in `[0, 1]`, so the scaling factor
`(1 - linkDensity)` lies in `[0, 1]` and the final scaling step moves a
candidate score toward zero without changing its sign; the scaling step
applied by `scoreParagraphs` multiplies each entry by exactly that
factor. -/
theorem claim_C7_linkDensity (n : HNode) :
    0 ≤ getLinkDensity n
    ∧ (utf8Len (textL n) = 0 → getLinkDensity n = 0)
    ∧ (noNestedAnchors n = true →
        getLinkDensity n ≤ 1
        ∧ (∀ q : ℚ, 0 ≤ q →
            0 ≤ q * (1 - getLinkDensity n)
              ∧ q * (1 - getLinkDensity n) ≤ q)
        ∧ (∀ q : ℚ, q ≤ 0 →
            q ≤ q * (1 - getLinkDensity n)
              ∧ q * (1 - getLinkDensity n) ≤ 0))
    ∧ (∀ (root : HNode) (k : List ℕ) (v : ℚ), getPath root k = some n →
        (scaleStep root (k, v)).2 = v * (1 - getLinkDensity n)) := by
  have hnn : 0 ≤ getLinkDensity n := by
    by_cases h : utf8Len (textL n) = 0
    · simp [getLinkDensity, h]
    · simp only [getLinkDensity, if_neg h]
      positivity
  refine ⟨hnn, ?_, ?_, ?_⟩
  · intro h
    simp [getLinkDensity, h]
  · intro hno
    have hle : getLinkDensity n ≤ 1 := by
      by_cases h : utf8Len (textL n) = 0
      · simp [getLinkDensity, h]
      · have hlink := linkLen_le_text n (noNested_mem n hno)
        simp only [getLinkDensity, if_neg h]
        rw [div_le_one (by positivity)]
        exact_mod_cast hlink
    have hfac0 : 0 ≤ 1 - getLinkDensity n := by linarith
    have hfac1 : 1 - getLinkDensity n ≤ 1 := by linarith
    refine ⟨hle, ?_, ?_⟩
    · intro q hq
      constructor
      · exact mul_nonneg hq hfac0
      · calc q * (1 - getLinkDensity n) ≤ q * 1 :=
              mul_le_mul_of_nonneg_left hfac1 hq
          _ = q := mul_one q
    · intro q hq
      constructor
      · calc q = q * 1 := (mul_one q).symm
          _ ≤ q * (1 - getLinkDensity n) :=
              mul_le_mul_of_nonpos_left hfac1 hq
      · exact mul_nonpos_of_nonpos_of_nonneg hq hfac0
  · intro root k v hget
    simp [scaleStep, hget]

/-- Witness for C7 on the fixture `linkT` (one anchor, no nesting): the
density is non-negative, bounded by 1, and the scaling factor keeps the
sign of the score 6. -/
theorem claim_C7_linkDensity_witness :
    0 ≤ getLinkDensity linkT
    ∧ getLinkDensity linkT ≤ 1
    ∧ 0 ≤ (6 : ℚ) * (1 - getLinkDensity linkT) :=
  ⟨(claim_C7_linkDensity linkT).1,
   ((claim_C7_linkDensity linkT).2.2.1 (by decide)).1,
   ((((claim_C7_linkDensity linkT).2.2.1 (by decide)).2.1 6 (by norm_num))).1⟩

/-- Counterexample for C7 as stated: on a tree with an anchor nested in an
anchor (reachable through foreign content), `Find("a").Text()` counts the
inner text twice, the density is 2 (outside `[0, 1]`), and the scaling
factor re-signs a positive score. -/
theorem claim_C7_counterexample :
    getLinkDensity nestedT = 2
    ∧ ¬ getLinkDensity nestedT ≤ 1
    ∧ (0 : ℚ) < 5
    ∧ (5 : ℚ) * (1 - getLinkDensity nestedT) < 0 := by
  have h1 : linkLen nestedT = 4 := by decide
  have h2 : utf8Len (textL nestedT) = 2 := by decide
  have hd : getLinkDensity nestedT = 2 := by
    simp [getLinkDensity, h1, h2]
    norm_num
  refine ⟨hd, ?_, by norm_num, ?_⟩
  · rw [hd]; norm_num
  · rw [hd]; norm_num

/-! ### C6 — article assembly -/

/-- C6 (amended): the assembler uses the threshold
`max(10, 0.2 * bestScore)`; a non-paragraph sibling is included iff it is
the best candidate or its candidate score meets the threshold; a paragraph
sibling is decided by the secondary test first — always included when its
text is at least 80 bytes with link density below 0.25, included iff its
text matches the sentence-terminal pattern when it is shorter than 80
bytes with zero link density (this ASSIGNMENT can exclude even the best
candidate), and decided by the base rule otherwise. -/
theorem claim_C6_articleAppend :
    (∀ s : ℚ, siblingThreshold s = max 10 (s * (1 / 5)))
    ∧ (∀ (isBest : Bool) (cand : Option ℚ) (thr : ℚ) (text : List Char)
        (ld : ℚ),
        articleAppend isBest cand thr false text ld = baseApp isBest cand thr)
    ∧ (∀ (isBest : Bool) (cand : Option ℚ) (thr : ℚ) (text : List Char)
        (ld : ℚ),
        articleAppend isBest cand thr true text ld =
          if 80 ≤ utf8Len text ∧ ld < 1 / 4 then true
          else if utf8Len text < 80 ∧ ld = 0 then sentenceMatch text
          else baseApp isBest cand thr) := by
  refine ⟨fun _ => rfl, ?_, ?_⟩
  · intro isBest cand thr text ld
    cases isBest <;> rfl
  · intro isBest cand thr text ld
    cases isBest <;> rfl

/-- Counterexample for C6 as stated: a paragraph that IS the best
candidate, with text shorter than 80 bytes, zero link density and no
sentence-terminal punctuation, is claimed included (first disjunct) but
the code excludes it: the secondary test overwrites the flag with the
result of the sentence-pattern match. -/
theorem claim_C6_counterexample :
    articleAppendClaimed true none (siblingThreshold 0) true
      (String.data "hello world") 0 = true
    ∧ articleAppend true none (siblingThreshold 0) true
      (String.data "hello world") 0 = false := by
  constructor <;> decide

/-! ### C8 — sanitizer whitespace replacement -/

/-- C8 (amended): in the part_003 sanitizer the replace-with-whitespace
set is exactly the seven tags dl, dd, ol, li, ul, address, center (minus
any whitelisted ones; the default whitelist div/p/h1 intersects none of
them); each element of the set collapses into a text node holding its own
text padded with one leading and one trailing space; `br` is NOT in the
set (the `br`/`hr`/`h1`-`h6` entries are commented out in part_003), so a
non-whitelisted `br` is spliced out without inserting whitespace. -/
theorem claim_C8_flatten :
    rwwSet whitelist3 = rwwBase3
    ∧ (∀ (wl : List String) (tag cls idA : String) (cs : HForest),
        tag ∈ rwwSet wl →
        flattenN wl (rwwSet wl) (.elem tag cls idA cs)
          = .cons (.textN (" " ++ (textLF cs).asString ++ " ")) .nil)
    ∧ (∀ (wl : List String) (cls idA : String), "br" ∉ wl →
        flattenN wl (rwwSet wl) (.elem "br" cls idA .nil) = .nil) := by
  refine ⟨by decide, ?_, ?_⟩
  · intro wl tag cls idA cs hmem
    have hnw : tag ∉ wl := by
      have := (List.mem_filter.mp hmem).2
      exact of_decide_eq_true this
    show (if tag ∈ wl then _ else if tag ∈ rwwSet wl then _ else _) = _
    rw [if_neg hnw, if_pos hmem]
  · intro wl cls idA hnw
    have hnr : "br" ∉ rwwSet wl := by
      intro hmem
      have := (List.mem_filter.mp hmem).1
      simp [rwwBase3] at this
    show (if "br" ∈ wl then _ else if "br" ∈ rwwSet wl then _ else _) = _
    rw [if_neg hnw, if_neg hnr]
    rfl

/-- Witness for C8: a non-whitelisted `li` collapses to its space-padded
text, and a `br` under the default whitelist is spliced away. -/
theorem claim_C8_flatten_witness :
    flattenN whitelist3 (rwwSet whitelist3)
      (.elem "li" "c" "i" (.cons (tN "x") .nil))
      = .cons (.textN " x ") .nil
    ∧ flattenN whitelist3 (rwwSet whitelist3) (.elem "br" "" "" .nil)
      = .nil :=
  ⟨by
    have h := claim_C8_flatten.2.1 whitelist3 "li" "c" "i"
      (.cons (tN "x") .nil) (by decide)
    simpa using h,
   claim_C8_flatten.2.2 whitelist3 "" "" (by decide)⟩

/-- Counterexample for C8 as stated: the claim's replace-with-whitespace
set contains `br` (not whitelisted by default), but the part_003 set does
not, and the text fragments "a" and "b", separated only by a `br`, appear
concatenated as "ab" (no intervening whitespace) after the flattening
walk. -/
theorem claim_C8_counterexample :
    "br" ∈ rwwSetClaimed whitelist3
    ∧ "br" ∉ rwwSet whitelist3
    ∧ textLF (flattenN whitelist3 (rwwSet whitelist3) demoP)
        = String.data "ab" := by
  refine ⟨by decide, by decide, by decide⟩

/-! ### C9 — document creation and the body fallback -/

/-- C9: with a Tree Provider honouring its contract (the synthesized
`"<body/>"` placeholder parses to a tree containing a body element),
document creation fails exactly when parsing the (preprocessed) input
fails; an input that parses to a tree with no body element does not fail:
`initializeHtml` re-enters itself on the placeholder and extraction
proceeds over the placeholder tree. -/
theorem claim_C9_newDocument {E : Type} (pre : String → String)
    (parse : String → Except E HNode) (s : String) (pb : HNode)
    (hpb : parse (pre "<body/>") = .ok pb) (hb : hasBody pb = true) :
    (∀ e, parse (pre s) = .error e → newDocument pre parse s = .error e)
    ∧ (∀ doc, parse (pre s) = .ok doc → hasBody doc = true →
        newDocument pre parse s = .ok (some doc))
    ∧ (∀ doc, parse (pre s) = .ok doc → hasBody doc = false →
        newDocument pre parse s = .ok (some pb))
    ∧ ((∃ e, newDocument pre parse s = .error e) ↔
        (∃ e, parse (pre s) = .error e)) := by
  have hstep : initHtmlF pre parse 1 "<body/>" = .ok (some pb) := by
    simp [initHtmlF, hpb, hb]
  refine ⟨?_, ?_, ?_, ?_⟩
  · intro e he
    simp [newDocument, initHtmlF, he]
  · intro doc hdoc hbody
    simp [newDocument, initHtmlF, hdoc, hbody]
  · intro doc hdoc hbody
    simp only [newDocument, initHtmlF, hdoc, hbody, Bool.false_eq_true,
      if_false]
    simp [hpb, hb]
  · constructor
    · rintro ⟨e, he⟩
      cases hps : parse (pre s) with
      | error e' => exact ⟨e', rfl⟩
      | ok doc =>
          exfalso
          by_cases hbody : hasBody doc
          · rw [show newDocument pre parse s = .ok (some doc) by
              simp [newDocument, initHtmlF, hps, hbody]] at he
            exact Except.noConfusion he
          · have hbody' : hasBody doc = false := by
              simpa using hbody
            rw [show newDocument pre parse s = .ok (some pb) by
              simp only [newDocument, initHtmlF, hps, hbody',
                Bool.false_eq_true, if_false]
              simp [hpb, hb]] at he
            exact Except.noConfusion he
    · rintro ⟨e, he⟩
      exact ⟨e, by simp [newDocument, initHtmlF, he]⟩

/-- Witness for C9 on the `parse9` fixture: an unparseable input surfaces
the parse error, a bodyless parse falls back to the placeholder tree
without failing, and a normal parse is returned as-is. -/
theorem claim_C9_newDocument_witness :
    newDocument id parse9 "BAD" = .error "oops"
    ∧ newDocument id parse9 "NOBODY" = .ok (some bodyT)
    ∧ newDocument id parse9 "fine" = .ok (some bodyT) :=
  ⟨(claim_C9_newDocument id parse9 "BAD" bodyT rfl (by decide)).1
      "oops" rfl,
   (claim_C9_newDocument id parse9 "NOBODY" bodyT rfl (by decide)).2.2.1
      nobodyT rfl (by decide),
   (claim_C9_newDocument id parse9 "fine" bodyT rfl (by decide)).2.1
      bodyT rfl (by decide)⟩

/-! ### The Content() control flow: branch equations -/

theorem contentV2Aux_cached (parse : String → HNode)
    (pipe : HNode → Flags → String × HNode) (fuel : ℕ) (d : DocSt)
    (h : d.content ≠ "") :
    contentV2Aux parse pipe (fuel + 1) d = (d.content, d, []) := by
  rw [contentV2Aux]
  rw [if_pos h]

theorem contentV2Aux_accept_long (parse : String → HNode)
    (pipe : HNode → Flags → String × HNode) (fuel : ℕ) (d : DocSt)
    (h : d.content = "")
    (hlen : ¬ goTrimLen (pipe d.tree d.flags).1 < d.retryLength) :
    contentV2Aux parse pipe (fuel + 1) d
      = ((pipe d.tree d.flags).1,
         { d with tree := (pipe d.tree d.flags).2,
                  content := (pipe d.tree d.flags).1 },
         [(d.tree, d.flags)]) := by
  rw [contentV2Aux]
  rw [if_neg (by simp [h])]
  simp only
  rw [if_neg hlen]

theorem contentV2Aux_accept_exhausted (parse : String → HNode)
    (pipe : HNode → Flags → String × HNode) (fuel : ℕ) (d : DocSt)
    (h : d.content = "")
    (hlen : goTrimLen (pipe d.tree d.flags).1 < d.retryLength)
    (hfl : (d.flags.ru || d.flags.wc || d.flags.cc) = false) :
    contentV2Aux parse pipe (fuel + 1) d
      = ((pipe d.tree d.flags).1,
         { d with tree := (pipe d.tree d.flags).2,
                  content := (pipe d.tree d.flags).1 },
         [(d.tree, d.flags)]) := by
  rw [contentV2Aux]
  rw [if_neg (by simp [h])]
  simp only
  rw [if_pos hlen, if_neg (by simp [hfl])]

theorem contentV2Aux_retry (parse : String → HNode)
    (pipe : HNode → Flags → String × HNode) (fuel : ℕ) (d : DocSt)
    (h : d.content = "")
    (hlen : goTrimLen (pipe d.tree d.flags).1 < d.retryLength)
    (hfl : (d.flags.ru || d.flags.wc || d.flags.cc) = true) :
    contentV2Aux parse pipe (fuel + 1) d
      = ((contentV2Aux parse pipe fuel
            { d with tree := parse d.input, flags := relax d.flags }).1,
         { (contentV2Aux parse pipe fuel
            { d with tree := parse d.input, flags := relax d.flags }).2.1
            with content :=
              (contentV2Aux parse pipe fuel
                { d with tree := parse d.input, flags := relax d.flags }).1 },
         (d.tree, d.flags)
           :: (contentV2Aux parse pipe fuel
                { d with tree := parse d.input,
                         flags := relax d.flags }).2.2) := by
  rw [contentV2Aux]
  rw [if_neg (by simp [h])]
  simp only
  rw [if_pos hlen, if_pos hfl]

theorem trueCount_relax (f : Flags)
    (h : (f.ru || f.wc || f.cc) = true) :
    trueCount (relax f) + 1 = trueCount f := by
  rcases f with ⟨ru, wc, cc⟩
  cases ru <;> cases wc <;> cases cc <;> simp_all [relax, trueCount]

theorem trueCount_le_three (f : Flags) : trueCount f ≤ 3 := by
  rcases f with ⟨ru, wc, cc⟩
  cases ru <;> cases wc <;> cases cc <;> decide

theorem contentV2Aux_content_eq (fuel : ℕ) : ∀ (parse : String → HNode)
    (pipe : HNode → Flags → String × HNode) (d : DocSt),
    ((contentV2Aux parse pipe fuel d).2.1).content
      = (contentV2Aux parse pipe fuel d).1 := by
  induction fuel with
  | zero => intro parse pipe d; rfl
  | succ a ih =>
      intro parse pipe d
      by_cases hc : d.content ≠ ""
      · rw [contentV2Aux_cached parse pipe a d hc]
      · push_neg at hc
        by_cases hlen : goTrimLen (pipe d.tree d.flags).1 < d.retryLength
        · by_cases hfl : (d.flags.ru || d.flags.wc || d.flags.cc) = true
          · rw [contentV2Aux_retry parse pipe a d hc hlen hfl]
          · rw [contentV2Aux_accept_exhausted parse pipe a d hc hlen
              (by simpa using hfl)]
        · rw [contentV2Aux_accept_long parse pipe a d hc hlen]

theorem contentV2Aux_log_le (fuel : ℕ) : ∀ (parse : String → HNode)
    (pipe : HNode → Flags → String × HNode) (d : DocSt),
    (contentV2Aux parse pipe fuel d).2.2.length ≤ fuel := by
  induction fuel with
  | zero => intro parse pipe d; exact le_refl _
  | succ a ih =>
      intro parse pipe d
      by_cases hc : d.content ≠ ""
      · rw [contentV2Aux_cached parse pipe a d hc]
        simp
      · push_neg at hc
        by_cases hlen : goTrimLen (pipe d.tree d.flags).1 < d.retryLength
        · by_cases hfl : (d.flags.ru || d.flags.wc || d.flags.cc) = true
          · rw [contentV2Aux_retry parse pipe a d hc hlen hfl]
            simpa using ih parse pipe _
          · rw [contentV2Aux_accept_exhausted parse pipe a d hc hlen
              (by simpa using hfl)]
            simp
        · rw [contentV2Aux_accept_long parse pipe a d hc hlen]
          simp

theorem contentV2Aux_fuel_irrel (f1 : ℕ) : ∀ (f2 : ℕ)
    (parse : String → HNode) (pipe : HNode → Flags → String × HNode)
    (d : DocSt), trueCount d.flags < f1 → trueCount d.flags < f2 →
    contentV2Aux parse pipe f1 d = contentV2Aux parse pipe f2 d := by
  induction f1 with
  | zero =>
      intro f2 parse pipe d h1 _
      exact absurd h1 (Nat.not_lt_zero _)
  | succ a ih =>
      intro f2 parse pipe d h1 h2
      match f2 with
      | 0 => exact absurd h2 (Nat.not_lt_zero _)
      | Nat.succ b =>
          by_cases hc : d.content ≠ ""
          · rw [contentV2Aux_cached parse pipe a d hc,
              contentV2Aux_cached parse pipe b d hc]
          · push_neg at hc
            by_cases hlen : goTrimLen (pipe d.tree d.flags).1 < d.retryLength
            · by_cases hfl : (d.flags.ru || d.flags.wc || d.flags.cc) = true
              · have hlt : trueCount (relax d.flags) + 1 = trueCount d.flags :=
                  trueCount_relax d.flags hfl
                have hrec := ih b parse pipe
                  { d with tree := parse d.input, flags := relax d.flags }
                  (by simp only []; omega) (by simp only []; omega)
                rw [contentV2Aux_retry parse pipe a d hc hlen hfl,
                  contentV2Aux_retry parse pipe b d hc hlen hfl, hrec]
              · rw [contentV2Aux_accept_exhausted parse pipe a d hc hlen
                  (by simpa using hfl),
                  contentV2Aux_accept_exhausted parse pipe b d hc hlen
                  (by simpa using hfl)]
            · rw [contentV2Aux_accept_long parse pipe a d hc hlen,
                contentV2Aux_accept_long parse pipe b d hc hlen]

/-- The part_002 retry controller behaves as the specification describes
it: at most 4 pipeline executions are logged; a run whose trimmed text is
shorter than `RetryLength` with some flag still on relaxes exactly one
flag (in the fixed order, via `relax`) and re-runs `Content` on the tree
re-parsed from the original input (not on the mutated tree); once all
three flags are off the result is accepted regardless of length.  This
supports the code_bug verdict on C1: the part_003 `Content` (see
`claim_C1_contentV3_no_retry`) does none of this. -/
theorem contentV2_retry_behaviour (parse : String → HNode)
    (pipe : HNode → Flags → String × HNode) (d : DocSt) :
    (contentV2 parse pipe d).2.2.length ≤ 4
    ∧ (∀ f : Flags, f.ru = true → relax f = { ru := false, wc := f.wc, cc := f.cc })
    ∧ (∀ f : Flags, f.ru = false → f.wc = true →
        relax f = { ru := false, wc := false, cc := f.cc })
    ∧ (∀ f : Flags, f.ru = false → f.wc = false →
        relax f = { ru := false, wc := false, cc := false })
    ∧ (d.content = "" →
        goTrimLen (pipe d.tree d.flags).1 < d.retryLength →
        ((d.flags.ru || d.flags.wc || d.flags.cc) = true →
          contentV2 parse pipe d
            = ((contentV2 parse pipe
                  { d with tree := parse d.input, flags := relax d.flags }).1,
               { (contentV2 parse pipe
                  { d with tree := parse d.input,
                           flags := relax d.flags }).2.1
                  with content :=
                    (contentV2 parse pipe
                      { d with tree := parse d.input,
                               flags := relax d.flags }).1 },
               (d.tree, d.flags)
                 :: (contentV2 parse pipe
                      { d with tree := parse d.input,
                               flags := relax d.flags }).2.2))
        ∧ ((d.flags.ru || d.flags.wc || d.flags.cc) = false →
            contentV2 parse pipe d
              = ((pipe d.tree d.flags).1,
                 { d with tree := (pipe d.tree d.flags).2,
                          content := (pipe d.tree d.flags).1 },
                 [(d.tree, d.flags)]))) := by
  refine ⟨?_, ?_, ?_, ?_, ?_⟩
  · exact contentV2Aux_log_le 4 parse pipe d
  · intro f hf
    rcases f with ⟨ru, wc, cc⟩
    cases ru <;> simp_all [relax]
  · intro f hf1 hf2
    rcases f with ⟨ru, wc, cc⟩
    cases ru <;> cases wc <;> simp_all [relax]
  · intro f hf1 hf2
    rcases f with ⟨ru, wc, cc⟩
    cases ru <;> cases wc <;> cases cc <;> simp_all [relax]
  · intro hc hlen
    constructor
    · intro hfl
      have hfuel : contentV2Aux parse pipe 3
          { d with tree := parse d.input, flags := relax d.flags }
          = contentV2Aux parse pipe 4
          { d with tree := parse d.input, flags := relax d.flags } := by
        have h1 := trueCount_relax d.flags hfl
        have h2 := trueCount_le_three d.flags
        exact contentV2Aux_fuel_irrel 3 4 parse pipe _
          (by simp only []; omega) (by simp only []; omega)
      show contentV2Aux parse pipe 4 d = _
      rw [contentV2Aux_retry parse pipe 3 d hc hlen hfl, hfuel]
      rfl
    · intro hfl
      show contentV2Aux parse pipe 4 d = _
      rw [contentV2Aux_accept_exhausted parse pipe 3 d hc hlen hfl]

/-! ### C1 — the part_003 Content() never reaches its retry loop -/

/-- C1 (code evidence): the live part of the part_003 `Content` returns
the serialized document immediately after `rateElements`; for any state
with an empty cache it performs zero full pipeline executions, relaxes no
configuration flag, caches nothing, and the retry loop is unreachable —
regardless of how short the result is compared with `RetryLength`.  This
contradicts the claimed retry behaviour (which the part_002 version does
implement: `contentV2_retry_behaviour`). -/
theorem claim_C1_contentV3_no_retry (headClean rate : HNode → HNode)
    (htmlOf : HNode → String) (d : DocSt) (h : d.content = "") :
    contentV3 headClean rate htmlOf d
      = (htmlOf (rate (headClean d.tree)),
         { d with tree := rate (headClean d.tree) }, [])
    ∧ (contentV3 headClean rate htmlOf d).2.1.flags = d.flags
    ∧ (contentV3 headClean rate htmlOf d).2.1.content = ""
    ∧ (contentV3 headClean rate htmlOf d).2.2 = [] := by
  have h1 : contentV3 headClean rate htmlOf d
      = (htmlOf (rate (headClean d.tree)),
         { d with tree := rate (headClean d.tree) }, []) := by
    simp [contentV3, h]
  refine ⟨h1, ?_, ?_, ?_⟩
  · rw [h1]
  · rw [h1]; exact h
  · rw [h1]

/-- Witness for C1's failing input: a fresh default state (all flags on,
`RetryLength` 250) whose serialized result "short" is far below the retry
threshold, yet the part_003 `Content` returns it with all flags intact,
no pipeline execution and nothing cached. -/
theorem claim_C1_contentV3_no_retry_witness :
    goTrimLen "short" < d0.retryLength
    ∧ contentV3 id id (fun _ => "short") d0
        = ("short", { d0 with tree := t0 }, [])
    ∧ (contentV3 id id (fun _ => "short") d0).2.1.flags = d0.flags :=
  ⟨by decide,
   (claim_C1_contentV3_no_retry id id (fun _ => "short") d0 rfl).1,
   (claim_C1_contentV3_no_retry id id (fun _ => "short") d0 rfl).2.1⟩

/-! ### C2 — memoization -/

/-- C2 (amended): `Content` (part_002) is memoized for non-empty results:
whenever the first call produces a non-empty string, it is stored, and a
second call on the resulting state returns exactly that string with the
state unchanged and an empty pipeline log (no recomputation).  (When the
result is empty, nothing is cached — see C10.) -/
theorem claim_C2_memoized_nonempty (parse : String → HNode)
    (pipe : HNode → Flags → String × HNode) (d : DocSt)
    (hne : (contentV2 parse pipe d).1 ≠ "") :
    contentV2 parse pipe ((contentV2 parse pipe d).2.1)
      = ((contentV2 parse pipe d).1, (contentV2 parse pipe d).2.1, []) := by
  have hxc : ((contentV2 parse pipe d).2.1).content
      = (contentV2 parse pipe d).1 :=
    contentV2Aux_content_eq 4 parse pipe d
  have hx : ((contentV2 parse pipe d).2.1).content ≠ "" := by
    rw [hxc]; exact hne
  show contentV2Aux parse pipe 4 ((contentV2 parse pipe d).2.1) = _
  rw [contentV2Aux_cached parse pipe 3 _ hx, hxc]

/-- Witness for C2 (amended): with a pipeline producing a long article and
`RetryLength` 5, the first call stores the text and the second call
returns it unchanged with no pipeline execution. -/
theorem claim_C2_memoized_nonempty_witness :
    contentV2 parse0 pipe1 ((contentV2 parse0 pipe1 d1).2.1)
      = ((contentV2 parse0 pipe1 d1).1, (contentV2 parse0 pipe1 d1).2.1,
         []) :=
  claim_C2_memoized_nonempty parse0 pipe1 d1 (by decide)

/-- Counterexample for C2 as stated: when the extraction result is the
empty string (pipeline `pipe0`), the first call stores nothing and the
second call runs the pipeline again (its execution log is non-empty), so
"every subsequent call returns the cached string without recomputation"
is false. -/
theorem claim_C2_counterexample :
    (contentV2 parse0 pipe0 d0).1 = ""
    ∧ (contentV2 parse0 pipe0 (contentV2 parse0 pipe0 d0).2.1).2.2 ≠ [] := by
  constructor <;> decide

/-! ### C10 — the empty-string memoization guard -/

theorem contentV2Aux_log_head (parse : String → HNode)
    (pipe : HNode → Flags → String × HNode) (fuel : ℕ) (d : DocSt)
    (h : d.content = "") :
    (contentV2Aux parse pipe (fuel + 1) d).2.2.head?
      = some (d.tree, d.flags) := by
  by_cases hlen : goTrimLen (pipe d.tree d.flags).1 < d.retryLength
  · by_cases hfl : (d.flags.ru || d.flags.wc || d.flags.cc) = true
    · rw [contentV2Aux_retry parse pipe fuel d h hlen hfl]
      rfl
    · rw [contentV2Aux_accept_exhausted parse pipe fuel d h hlen
        (by simpa using hfl)]
      rfl
  · rw [contentV2Aux_accept_long parse pipe fuel d h hlen]
    rfl

/-- C10: the memoization guard of `Content` tests the cached string
against the empty string, so nothing non-trivial happens only for
non-empty caches; for a document whose extraction result is the empty
string the post-state cache is still empty and every subsequent call
re-enters the pipeline — its first pipeline execution runs on the tree
left behind by the previous call (the already-destructively-mutated tree),
not on a stored result. -/
theorem claim_C10_empty_guard (parse : String → HNode)
    (pipe : HNode → Flags → String × HNode) (d : DocSt) :
    (∀ d' : DocSt, d'.content ≠ "" →
        contentV2 parse pipe d' = (d'.content, d', []))
    ∧ ((contentV2 parse pipe d).1 = "" →
        ((contentV2 parse pipe d).2.1).content = ""
        ∧ (contentV2 parse pipe ((contentV2 parse pipe d).2.1)).2.2.head?
            = some (((contentV2 parse pipe d).2.1).tree,
                    ((contentV2 parse pipe d).2.1).flags)
        ∧ (contentV2 parse pipe ((contentV2 parse pipe d).2.1)).2.2
            ≠ []) := by
  constructor
  · intro d' hd'
    exact contentV2Aux_cached parse pipe 3 d' hd'
  · intro hempty
    have hxc : ((contentV2 parse pipe d).2.1).content
        = (contentV2 parse pipe d).1 :=
      contentV2Aux_content_eq 4 parse pipe d
    have hxc0 : ((contentV2 parse pipe d).2.1).content = "" := by
      rw [hxc]; exact hempty
    have hhead := contentV2Aux_log_head parse pipe 3
      ((contentV2 parse pipe d).2.1) hxc0
    refine ⟨hxc0, hhead, ?_⟩
    intro hnil
    rw [show contentV2 parse pipe ((contentV2 parse pipe d).2.1)
        = contentV2Aux parse pipe 4 ((contentV2 parse pipe d).2.1)
        from rfl] at hnil
    rw [hnil] at hhead
    exact Option.noConfusion hhead

/-- Witness for C10: with the always-empty pipeline the first call yields
the empty string, nothing is cached, and the second call's pipeline log
starts with the state's current tree and flags. -/
theorem claim_C10_empty_guard_witness :
    ((contentV2 parse0 pipe0 d0).2.1).content = ""
    ∧ (contentV2 parse0 pipe0 (contentV2 parse0 pipe0 d0).2.1).2.2.head?
        = some (((contentV2 parse0 pipe0 d0).2.1).tree,
                ((contentV2 parse0 pipe0 d0).2.1).flags) :=
  ⟨((claim_C10_empty_guard parse0 pipe0 d0).2 (by decide)).1,
   ((claim_C10_empty_guard parse0 pipe0 d0).2 (by decide)).2.1⟩

end GoReadability
